import Mathlib

/-!
# Verification of the `bevy_simple_menu` tutorial crate

A shallow embedding, in Lean 4, of the menu logic of the `bevy_simple_menu`
tutorial: the application state stack consumed from the host engine, the
scene builders and teardown functions for the main menu and the controls
menu, and the per-frame interaction handlers, together with the lifecycle
wiring registered by `MenusPlugin::build`.

Sources embedded:
* `src/bevy_simple_menu/src/menus/main_menu.rs`
* `src/bevy_simple_menu/src/menus/controls_menu.rs`
* `src/bevy_simple_menu/src/menus/mod.rs`
* `src/bevy_simple_menu/src/camera.rs`
* `src/bevy/bevy_simple_menu/src/main.rs`
-/

namespace BevySimpleMenu

/-- Modelled from the spec: the `GameState` enum lives in `src/states.rs`,
which is not among the provided source files; its three variants
`MainMenu`, `ControlMenu` and `MainGame` are fixed by the spec's
`ApplicationState` (§3) and by every use site in the menu modules. -/
inductive GameState where
  | MainMenu
  | ControlMenu
  | MainGame
deriving DecidableEq, Repr

/-- The buttons in the main menu (`MenuItem` in `main_menu.rs`). -/
inductive MenuItem where
  | Play
  | Controls
  | Exit
deriving DecidableEq, Repr

/-- The per-frame interaction signal supplied by the host engine for a
button entity: clicked, hovered, or none (spec §3). -/
inductive Interaction where
  | Clicked
  | Hovered
  | None
deriving DecidableEq, Repr

/-- Modelled from the spec: the error values of the host engine's state
stack. `emptyStack` is the spec's `EmptyStackError` (§4.1: popping a
one-element stack fails); `alreadyQueued` is the failure of a transition
request when another transition is already queued for this frame (§5:
transitions are deferred and take effect by the next frame, so at most one
can be queued per frame). -/
inductive StateError where
  | emptyStack
  | alreadyQueued
deriving DecidableEq, Repr

/-- Modelled from the spec: a state transition queued by `push`/`pop`,
applied by the host engine at the safe point between frames (§5). -/
inductive ScheduledOp where
  | pushOp (s : GameState)
  | popOp
deriving DecidableEq, Repr

/-- Modelled from the spec: the host engine's `State<GameState>` resource
(§4.1, a consumed contract): an ordered stack of states, head = top =
current, together with the transition queued during the current frame. -/
structure AppStateResource where
  stack : List GameState
  scheduled : Option ScheduledOp
deriving DecidableEq, Repr

/-- Modelled from the spec: `push(state)` queues a push transition;
it fails when a transition is already queued this frame (§5). -/
def pushState (s : GameState) (st : AppStateResource) :
    Except StateError AppStateResource :=
  if st.scheduled.isSome then .error .alreadyQueued
  else .ok { st with scheduled := some (.pushOp s) }

/-- Modelled from the spec: `pop()` fails with `EmptyStackError` when the
stack holds only one state (§4.1), fails when a transition is already
queued (§5), and otherwise queues a pop transition. -/
def popState (st : AppStateResource) : Except StateError AppStateResource :=
  if st.stack.length ≤ 1 then .error .emptyStack
  else if st.scheduled.isSome then .error .alreadyQueued
  else .ok { st with scheduled := some .popOp }

/-- Modelled from the spec: at the safe point between frames the engine
applies the queued transition to the stack (§5); a push suspends the
current top and activates the new state, a pop removes the top (§4.1). -/
def applyScheduled (st : AppStateResource) : AppStateResource :=
  match st.scheduled with
  | none => st
  | some (.pushOp s) => { stack := s :: st.stack, scheduled := none }
  | some .popOp =>
      match st.stack with
      | _ :: rest => { stack := rest, scheduled := none }
      | [] => { st with scheduled := none }

/-- A call into the state-stack contract: a `push` request, a `pop`
request, or the engine applying the queued transition between frames. -/
inductive StackCall where
  | callPush (s : GameState)
  | callPop
  | callApply
deriving DecidableEq, Repr

/-- Run one stack call. Failed `push`/`pop` requests leave the resource
unchanged (the caller observes the `Err`; the resource is untouched). -/
def runStackCall (c : StackCall) (st : AppStateResource) : AppStateResource :=
  match c with
  | .callPush s => match pushState s st with | .ok st' => st' | .error _ => st
  | .callPop => match popState st with | .ok st' => st' | .error _ => st
  | .callApply => applyScheduled st

/-- Run a sequence of stack calls, left to right. -/
def runStackCalls (cs : List StackCall) (st : AppStateResource) :
    AppStateResource :=
  cs.foldl (fun st c => runStackCall c st) st

/-- `handle_back_button_interaction` (`controls_menu.rs`): for each back
button entity, on `Clicked` pop the state stack and `unwrap` the result — a
pop failure is logged and then aborts the process (modelled as `none`);
`Hovered` and `None` do nothing. The input list holds the `Interaction`
signal of each entity the `Query<&Interaction, With<BackButton>>` yields,
in iteration order. `backStep` is the body of the `for_each` closure,
threading the abort (`none`) through the fold. -/
def backStep (acc : Option AppStateResource) (i : Interaction) :
    Option AppStateResource :=
  acc.bind fun st =>
    match i with
    | .Clicked => (popState st).toOption
    | .Hovered => some st
    | .None => some st

def handle_back_button_interaction (inters : List Interaction)
    (st : AppStateResource) : Option AppStateResource :=
  inters.foldl backStep (some st)

/-- The world visible to `handle_menu_item_click`: the state-stack resource
and the number of `AppExit` events sent so far through the event writer. -/
structure ClickWorld where
  state : AppStateResource
  exits : Nat
deriving DecidableEq, Repr

/-- `handle_menu_item_click` (`main_menu.rs`): for each `(Interaction,
MenuItem)` pair the query yields, on `Clicked`: `Play` pushes `MainGame`
and unwraps, `Controls` pushes `ControlMenu` and unwraps, `Exit` sends one
`AppExit` event; `Hovered` and the catch-all arm do nothing. A failed
`unwrap` aborts the process (modelled as `none`). `clickStep` is the body
of the `for_each` closure, threading the abort through the fold. -/
def clickStep (acc : Option ClickWorld) (im : Interaction × MenuItem) :
    Option ClickWorld :=
  acc.bind fun w =>
    match im.1 with
    | .Clicked =>
        match im.2 with
        | .Play =>
            ((pushState .MainGame w.state).toOption).map
              fun st => { w with state := st }
        | .Controls =>
            ((pushState .ControlMenu w.state).toOption).map
              fun st => { w with state := st }
        | .Exit => some { w with exits := w.exits + 1 }
    | .Hovered => some w
    | .None => some w

def handle_menu_item_click (items : List (Interaction × MenuItem))
    (w : ClickWorld) : Option ClickWorld :=
  items.foldl clickStep (some w)

/-- The two scene-marker tag components of the repository: `MainMenu`
(`main_menu.rs`) and `ControlMenu` (`controls_menu.rs`). `MainGame` has no
scene and hence no marker in this repository. -/
inductive Marker where
  | mainMenu
  | controlMenu
deriving DecidableEq, Repr

/-- The components of one UI entity that this development observes: its
entity id, its optional scene-marker tag, its optional `MenuItem` tag, the
`BackButton` tag, its text (for `TextBundle`s), whether it is a button
entity, and its `Visible.is_visible` flag. -/
structure EntityData where
  id : Nat
  marker : Option Marker
  menuItem : Option MenuItem
  backButton : Bool
  text : Option String
  isButton : Bool
  isVisible : Bool
deriving DecidableEq, Repr

/-- A UI entity together with its child entities: the scene graph is a
forest of such trees (`with_children` in the source). -/
inductive EntityTree where
  | node (data : EntityData) (children : List EntityTree)

/-- The root entity of a tree. -/
def EntityTree.rootData : EntityTree → EntityData
  | .node d _ => d

mutual

/-- All entity data in a tree, root before descendants. -/
def allDataT : EntityTree → List EntityData
  | .node d cs => d :: allDataF cs

/-- All entity data in a forest, root before descendants. -/
def allDataF : List EntityTree → List EntityData
  | [] => []
  | t :: ts => allDataT t ++ allDataF ts

end

/-- All entity ids in a forest. -/
def idsF (f : List EntityTree) : List Nat :=
  (allDataF f).map (·.id)

mutual

/-- `despawn_recursive` restricted to one tree: a tree whose root is
tagged `m` is removed whole (with all descendants); otherwise the root is
kept and its children are filtered recursively. -/
def teardownTree (m : Marker) : EntityTree → List EntityTree
  | .node d cs =>
      if d.marker = some m then []
      else [.node d (teardownForest m cs)]

/-- `despawn_recursive` applied to every entity carrying marker `m`, as
`teardown_menu_items` / `teardown_controls_menu` do. -/
def teardownForest (m : Marker) : List EntityTree → List EntityTree
  | [] => []
  | t :: ts => teardownTree m t ++ teardownForest m ts

end

mutual

/-- The entity data removed by `teardownTree m`: if the root is tagged
`m`, the whole subtree; otherwise whatever is removed below it. -/
def removedDataT (m : Marker) : EntityTree → List EntityData
  | .node d cs =>
      if d.marker = some m then allDataT (.node d cs)
      else removedDataF m cs

/-- The entity data removed by `teardownForest m`: every entity tagged `m`
together with all of its descendants. -/
def removedDataF (m : Marker) : List EntityTree → List EntityData
  | [] => []
  | t :: ts => removedDataT m t ++ removedDataF m ts

end

/-- A bare entity with the given id and no tags; `Visible::default()` in
bevy has `is_visible: true`, so entities that do not override visibility
are visible. -/
def blankEntity (i : Nat) : EntityData :=
  { id := i, marker := none, menuItem := none, backButton := false,
    text := none, isButton := false, isVisible := true }

/-- The button label chosen in `spawn_button` by matching on the
`MenuItem` (`main_menu.rs`). -/
def menuItemLabel : MenuItem → String
  | .Play => "Play"
  | .Controls => "Controls"
  | .Exit => "Exit"

/-- `spawn_button` (`main_menu.rs`): a `ButtonBundle` entity tagged with
the given `MenuItem`, with one child `TextBundle` whose text is the label
matched from the `MenuItem`. -/
def spawn_button (i : Nat) (menu_item : MenuItem) : EntityTree :=
  .node { blankEntity i with isButton := true, menuItem := some menu_item }
    [ .node { blankEntity (i + 1) with text := some (menuItemLabel menu_item) } [] ]

/-- The entity tree spawned by `setup_main_menu` (`main_menu.rs`): a root
`NodeBundle` with `Visible { is_visible: false }` tagged `MainMenu`, whose
children are the title `TextBundle` "Bevy Simple Menu" and the three
buttons for `Play`, `Controls` and `Exit`. Ids are assigned sequentially
from `n`. -/
def mainMenuTree (n : Nat) : EntityTree :=
  .node { blankEntity n with marker := some .mainMenu, isVisible := false }
    [ .node { blankEntity (n + 1) with text := some "Bevy Simple Menu" } [],
      spawn_button (n + 2) .Play,
      spawn_button (n + 4) .Controls,
      spawn_button (n + 6) .Exit ]

/-- The entity tree spawned by `setup_controls_menu`
(`controls_menu.rs`): a root `NodeBundle` with `Visible { is_visible:
false }` tagged `ControlMenu`, whose children are the instructional
`TextBundle` and a `ButtonBundle` tagged `BackButton` with a "Back" text
child. -/
def controlsMenuTree (n : Nat) : EntityTree :=
  .node { blankEntity n with marker := some .controlMenu, isVisible := false }
    [ .node { blankEntity (n + 1) with
        text := some "Use \"WASD\" to move and \"E\" to interact with things." } [],
      .node { blankEntity (n + 2) with isButton := true, backButton := true }
        [ .node { blankEntity (n + 3) with text := some "Back" } [] ] ]

/-- The texts of all entities in a forest, in entity order. -/
def textsF (f : List EntityTree) : List String :=
  (allDataF f).filterMap (·.text)

mutual

/-- For every entity of one tree carrying a `MenuItem` tag, the tag
together with the texts of the entities strictly below it (its button
label). -/
def buttonSummaryT : EntityTree → List (MenuItem × List String)
  | .node d cs =>
      (match d.menuItem with
       | some m => [(m, textsF cs)]
       | none => []) ++ buttonSummaryF cs

/-- For every entity of a forest carrying a `MenuItem` tag, the tag
together with the texts of the entities strictly below it. -/
def buttonSummaryF : List EntityTree → List (MenuItem × List String)
  | [] => []
  | t :: ts => buttonSummaryT t ++ buttonSummaryF ts

end

/-- The colors this repository mentions: the `ClearColor` default of the
engine, and the colors written by the menu code. -/
inductive Color where
  | defaultClear
  | black
  | white
  | darkGray
deriving DecidableEq, Repr

/-- The world state the repository's systems read and write: the UI scene
graph, the `ClearColor` resource, the `State<GameState>` resource, the
count of `AppExit` events sent, and the next fresh entity id. -/
structure World where
  forest : List EntityTree
  clearColor : Color
  state : AppStateResource
  exits : Nat
  nextId : Nat

/-- `setup_main_menu` (`main_menu.rs`): sets `clear_color.0 = Color::BLACK`
and spawns the main-menu entity tree (8 entities). -/
def setup_main_menu (w : World) : World :=
  { w with forest := w.forest ++ [mainMenuTree w.nextId],
           clearColor := .black,
           nextId := w.nextId + 8 }

/-- `setup_controls_menu` (`controls_menu.rs`): spawns the controls-menu
entity tree (4 entities); it does not mention the `ClearColor` resource. -/
def setup_controls_menu (w : World) : World :=
  { w with forest := w.forest ++ [controlsMenuTree w.nextId],
           nextId := w.nextId + 4 }

/-- `teardown_menu_items` (`main_menu.rs`): `despawn_recursive` on every
entity of the `Query<Entity, With<MainMenu>>`. -/
def teardown_menu_items (w : World) : World :=
  { w with forest := teardownForest .mainMenu w.forest }

/-- `teardown_controls_menu` (`controls_menu.rs`): `despawn_recursive` on
every entity of the `Query<Entity, With<ControlMenu>>`. -/
def teardown_controls_menu (w : World) : World :=
  { w with forest := teardownForest .controlMenu w.forest }

/-- `spawn_ui_camera` (`camera.rs`): spawns a `UiCameraBundle` entity; it
carries no scene marker and no menu tags. -/
def spawn_ui_camera (w : World) : World :=
  { w with forest := w.forest ++ [.node (blankEntity w.nextId) []],
           nextId := w.nextId + 1 }

/-- One operation of this repository acting on the world: the per-state
systems registered by `MenusPlugin::build`, the startup camera system, and
the engine applying the queued state transition between frames. Handler
operations carry the interaction signals the engine supplies that frame. -/
inductive Operation where
  | opSetupMainMenu
  | opSetupControlsMenu
  | opTeardownMenuItems
  | opTeardownControlsMenu
  | opHandleMenuItemClick (items : List (Interaction × MenuItem))
  | opHandleBackButton (inters : List Interaction)
  | opSpawnUiCamera
  | opApplyScheduled
deriving DecidableEq, Repr

/-- Run one operation on the world; `none` means the process aborted on a
failed `unwrap` in a handler. -/
def runOp (op : Operation) (w : World) : Option World :=
  match op with
  | .opSetupMainMenu => some (setup_main_menu w)
  | .opSetupControlsMenu => some (setup_controls_menu w)
  | .opTeardownMenuItems => some (teardown_menu_items w)
  | .opTeardownControlsMenu => some (teardown_controls_menu w)
  | .opHandleMenuItemClick items =>
      (handle_menu_item_click items { state := w.state, exits := w.exits }).map
        fun cw => { w with state := cw.state, exits := cw.exits }
  | .opHandleBackButton inters =>
      (handle_back_button_interaction inters w.state).map
        fun st => { w with state := st }
  | .opSpawnUiCamera => some (spawn_ui_camera w)
  | .opApplyScheduled => some { w with state := applyScheduled w.state }

/-- Run a sequence of operations, aborting as soon as one aborts. -/
def runOps (ops : List Operation) (w : World) : Option World :=
  ops.foldl (fun acc op => acc.bind (runOp op)) (some w)

/-- The world at startup, as configured in `main.rs`: empty scene graph,
the engine's default clear color, the state stack holding only
`GameState::MainMenu` (`app.add_state`), no exit events. -/
def initialWorld : World :=
  { forest := [], clearColor := .defaultClear,
    state := { stack := [.MainMenu], scheduled := none },
    exits := 0, nextId := 0 }

/-- The five lifecycle hooks a `SystemSet` can be registered against in
`MenusPlugin::build`: `on_enter`, `on_resume`, `on_update`, `on_pause`,
`on_exit`. -/
inductive Hook where
  | enter
  | resume
  | update
  | pause
  | exit
deriving DecidableEq, Repr

/-- The four systems the plugin registers, abstracted by their effect:
scene build, scene teardown, the main-menu click handler, the back-button
handler. -/
inductive SysAction where
  | buildScene
  | teardownScene
  | clickSystem
  | backSystem
deriving DecidableEq, Repr

/-- The registration table of `MenusPlugin::build` (`menus/mod.rs`),
read off the eight `add_system_set` calls: per state and hook, the systems
registered. `MainGame` registers nothing. -/
def registeredSystems : GameState → Hook → List SysAction
  | .MainMenu, .enter => [.buildScene]
  | .MainMenu, .resume => [.buildScene]
  | .MainMenu, .update => [.clickSystem]
  | .MainMenu, .pause => [.teardownScene]
  | .MainMenu, .exit => [.teardownScene]
  | .ControlMenu, .enter => [.buildScene]
  | .ControlMenu, .update => [.backSystem]
  | .ControlMenu, .exit => [.teardownScene]
  | _, _ => []

/-- The scene-root marker of a state: `MainMenu` and `ControlMenu` own a
marker tag; `MainGame` has no scene in this repository. -/
def markerOf : GameState → Option Marker
  | .MainMenu => some .mainMenu
  | .ControlMenu => some .controlMenu
  | .MainGame => none

/-- Effect of one registered system on the multiset of scene-root markers
present in the scene graph: a build adds the state's root marker, a
teardown removes every root carrying it; the update handlers do not touch
the scene graph. -/
def runSceneAction (s : GameState) (a : SysAction) (ms : List Marker) :
    List Marker :=
  match a with
  | .buildScene => ms ++ (markerOf s).toList
  | .teardownScene =>
      match markerOf s with
      | some m => ms.filter (· ≠ m)
      | none => ms
  | .clickSystem => ms
  | .backSystem => ms

/-- Run every system registered for state `s` at hook `h` on the marker
multiset. -/
def runHook (s : GameState) (h : Hook) (ms : List Marker) : List Marker :=
  (registeredSystems s h).foldl (fun ms a => runSceneAction s a ms) ms

/-- An observation point between frames of the lifecycle model: the state
stack (head = top = current), the list of states that have been
entered or resumed and not yet paused or exited, and the scene-root
markers present in the scene graph. -/
structure LifeState where
  stack : List GameState
  active : List GameState
  markers : List Marker
deriving DecidableEq, Repr

/-- The engine applying a push of `s` (spec §4.1): the old top is paused
(its `on_pause` systems run and it leaves the active set), then `s` is
entered (its `on_enter` systems run and it joins the active set) and
becomes the new top. -/
def doPush (s : GameState) (st : LifeState) : LifeState :=
  match st.stack with
  | top :: rest =>
      { stack := s :: top :: rest,
        active := s :: st.active.erase top,
        markers := runHook s .enter (runHook top .pause st.markers) }
  | [] => st

/-- The engine applying a pop (spec §4.1): the top state exits (its
`on_exit` systems run and it leaves the active set), then the state now on
top is resumed (its `on_resume` systems run and it joins the active
set). -/
def doPop (st : LifeState) : LifeState :=
  match st.stack with
  | top :: next :: rest =>
      { stack := next :: rest,
        active := next :: st.active.erase top,
        markers := runHook next .resume (runHook top .exit st.markers) }
  | _ => st

/-- One between-frames transition of the application. Transitions originate
only in the update systems the plugin registers for the current top state:
`MainMenu`'s click handler can push `MainGame` (Play) or `ControlMenu`
(Controls); `ControlMenu`'s back handler can pop; `MainGame` registers no
update systems, so no transition leaves it. -/
inductive MenuStep : LifeState → LifeState → Prop where
  | clickPlay (st : LifeState) (h : st.stack.head? = some .MainMenu) :
      MenuStep st (doPush .MainGame st)
  | clickControls (st : LifeState) (h : st.stack.head? = some .MainMenu) :
      MenuStep st (doPush .ControlMenu st)
  | clickBack (st : LifeState) (h : st.stack.head? = some .ControlMenu)
      (hl : 1 < st.stack.length) :
      MenuStep st (doPop st)

/-- The lifecycle state right after startup (`main.rs`:
`app.add_state(GameState::MainMenu)`): the stack holds `MainMenu`, which
has been entered — its `on_enter` systems have run on the empty scene
graph. -/
def initLife : LifeState :=
  { stack := [.MainMenu], active := [.MainMenu],
    markers := runHook .MainMenu .enter [] }

/-- A lifecycle state reachable from startup by the transitions the
registered handlers can cause. -/
def ReachableLife (st : LifeState) : Prop :=
  Relation.ReflTransGen MenuStep initLife st

/-! ## Forest lemmas -/

/-- Induction over entity forests: to prove `P` of every forest it
suffices to prove it of the empty forest and of `node d cs :: ts` given it
for the children `cs` and the remaining trees `ts`. -/
theorem forest_ind (P : List EntityTree → Prop) (hnil : P [])
    (hcons : ∀ d cs ts, P cs → P ts → P (EntityTree.node d cs :: ts)) :
    ∀ f, P f
  | [] => hnil
  | .node d cs :: ts =>
      hcons d cs ts (forest_ind P hnil hcons cs) (forest_ind P hnil hcons ts)

theorem allDataF_append (f g : List EntityTree) :
    allDataF (f ++ g) = allDataF f ++ allDataF g := by
  induction f with
  | nil => simp [allDataF]
  | cons t ts ih => simp [allDataF, ih]

/-- No entity surviving `teardownForest m` carries marker `m`. -/
theorem teardown_no_marked (m : Marker) :
    ∀ f, ∀ d ∈ allDataF (teardownForest m f), d.marker ≠ some m := by
  refine forest_ind _ ?_ ?_
  · simp [teardownForest, allDataF]
  · intro d cs ts ihcs ihts e he
    by_cases hm : d.marker = some m
    · simp only [teardownForest, teardownTree, hm, if_pos rfl] at he
      simp only [if_true, List.nil_append] at he
      exact ihts e he
    · simp only [teardownForest, teardownTree, if_neg hm, List.cons_append,
        List.nil_append, allDataF, allDataT, List.singleton_append,
        List.mem_cons, List.mem_append] at he
      rcases he with rfl | he | he
      · exact hm
      · exact ihcs e he
      · exact ihts e he

/-- Every entity carrying marker `m` is among the removed data. -/
theorem marked_mem_removed (m : Marker) :
    ∀ f, ∀ d ∈ allDataF f, d.marker = some m → d ∈ removedDataF m f := by
  refine forest_ind _ ?_ ?_
  · simp [allDataF]
  · intro d cs ts ihcs ihts e he hm
    simp only [allDataF, allDataT, List.cons_append, List.mem_cons,
      List.mem_append] at he
    simp only [removedDataF, removedDataT, List.mem_append]
    by_cases hd : d.marker = some m
    · rcases he with rfl | he | he
      · exact Or.inl (by simp [if_pos hd, allDataT])
      · exact Or.inl (by simp [if_pos hd, allDataT, he])
      · exact Or.inr (ihts e he hm)
    · rcases he with rfl | he | he
      · exact absurd hm hd
      · exact Or.inl (by simpa [if_neg hd] using ihcs e he hm)
      · exact Or.inr (ihts e he hm)

/-- Counting an id: surviving ids and removed ids partition the ids of the
original forest. -/
theorem count_ids_teardown (m : Marker) (i : Nat) :
    ∀ f, (idsF (teardownForest m f)).count i
        + ((removedDataF m f).map (·.id)).count i
      = (idsF f).count i := by
  refine forest_ind _ ?_ ?_
  · simp [teardownForest, removedDataF, idsF, allDataF]
  · intro d cs ts ihcs ihts
    by_cases hm : d.marker = some m
    · by_cases hi : i = d.id
      · simp only [teardownForest, teardownTree, removedDataF, removedDataT,
          if_pos hm, idsF, allDataF, allDataT, List.nil_append, List.map_append,
          List.map_cons, List.count_append, List.count_cons, hi] at *
        simp_all
        omega
      · simp only [teardownForest, teardownTree, removedDataF, removedDataT,
          if_pos hm, idsF, allDataF, allDataT, List.nil_append, List.map_append,
          List.map_cons, List.count_append, List.count_cons] at *
        simp_all [hi]
        omega
    · by_cases hi : i = d.id
      · simp only [teardownForest, teardownTree, removedDataF, removedDataT,
          if_neg hm, idsF, allDataF, allDataT, List.cons_append,
          List.nil_append, List.singleton_append, List.map_append,
          List.map_cons, List.count_append, List.count_cons, hi] at *
        simp_all
        omega
      · simp only [teardownForest, teardownTree, removedDataF, removedDataT,
          if_neg hm, idsF, allDataF, allDataT, List.cons_append,
          List.nil_append, List.singleton_append, List.map_append,
          List.map_cons, List.count_append, List.count_cons] at *
        simp_all [hi]
        omega

/-- If the forest holds no entity with marker `m`, teardown is the
identity. -/
theorem teardown_eq_self (m : Marker) :
    ∀ f, (∀ d ∈ allDataF f, d.marker ≠ some m) → teardownForest m f = f := by
  refine forest_ind _ ?_ ?_
  · intro _
    rfl
  · intro d cs ts ihcs ihts h
    have hd : d.marker ≠ some m := h d (by simp [allDataF, allDataT])
    have hcs : ∀ e ∈ allDataF cs, e.marker ≠ some m := fun e he =>
      h e (by simp [allDataF, allDataT, he])
    have hts : ∀ e ∈ allDataF ts, e.marker ≠ some m := fun e he =>
      h e (by simp [allDataF, allDataT, he])
    simp [teardownForest, teardownTree, if_neg hd, ihcs hcs, ihts hts]

/-- C6: after a state's teardown runs, no entity carrying that state's
marker remains in the scene graph; every entity that carried the marker is
among the removed data, and (for a scene graph with distinct entity ids)
no removed entity — a marked entity or any of its descendants, including
descendants attached after the initial build — survives. -/
theorem teardown_completeness (m : Marker) (f : List EntityTree) :
    (∀ d ∈ allDataF (teardownForest m f), d.marker ≠ some m) ∧
    (∀ d ∈ allDataF f, d.marker = some m → d ∈ removedDataF m f) ∧
    ((idsF f).Nodup →
      ∀ d ∈ removedDataF m f, d.id ∉ idsF (teardownForest m f)) := by
  refine ⟨teardown_no_marked m f, marked_mem_removed m f, ?_⟩
  intro hnd d hd hmem
  have h1 : 0 < (idsF (teardownForest m f)).count d.id :=
    List.count_pos_iff.mpr hmem
  have h2 : 0 < ((removedDataF m f).map (·.id)).count d.id :=
    List.count_pos_iff.mpr (List.mem_map_of_mem (·.id) hd)
  have h3 := count_ids_teardown m d.id f
  have h4 : (idsF f).count d.id ≤ 1 :=
    List.nodup_iff_count_le_one.mp hnd d.id
  omega

/-- Witness for C6 at a concrete forest: one marked root with one child,
next to an unmarked bystander, with distinct ids. -/
theorem teardown_completeness_witness :
    (idsF [EntityTree.node { blankEntity 0 with marker := some .mainMenu }
        [EntityTree.node (blankEntity 1) []],
       EntityTree.node (blankEntity 2) []]).Nodup ∧
    ((blankEntity 1) ∈ removedDataF .mainMenu
        [EntityTree.node { blankEntity 0 with marker := some .mainMenu }
          [EntityTree.node (blankEntity 1) []],
         EntityTree.node (blankEntity 2) []] →
      (blankEntity 1).id ∉ idsF (teardownForest .mainMenu
        [EntityTree.node { blankEntity 0 with marker := some .mainMenu }
          [EntityTree.node (blankEntity 1) []],
         EntityTree.node (blankEntity 2) []])) := by
  refine ⟨by decide, ?_⟩
  exact fun h => (teardown_completeness .mainMenu
    [EntityTree.node { blankEntity 0 with marker := some .mainMenu }
      [EntityTree.node (blankEntity 1) []],
     EntityTree.node (blankEntity 2) []]).2.2 (by decide) (blankEntity 1) h

/-- C7: invoking a state's teardown on a scene graph holding no entity
with that state's marker leaves the world unchanged (and, being a total
function, does not fail). -/
theorem teardown_idempotent_at_zero :
    (∀ w : World, (∀ d ∈ allDataF w.forest, d.marker ≠ some .mainMenu) →
      teardown_menu_items w = w) ∧
    (∀ w : World, (∀ d ∈ allDataF w.forest, d.marker ≠ some .controlMenu) →
      teardown_controls_menu w = w) := by
  constructor
  · intro w h
    cases w
    simp [teardown_menu_items, teardown_eq_self .mainMenu _ h]
  · intro w h
    cases w
    simp [teardown_controls_menu, teardown_eq_self .controlMenu _ h]

/-- Witness for C7: tearing down the main menu and the controls menu in a
world holding only the controls scene and only the main scene
respectively is the identity. -/
theorem teardown_idempotent_at_zero_witness :
    teardown_menu_items { initialWorld with forest := [controlsMenuTree 0] }
        = { initialWorld with forest := [controlsMenuTree 0] } ∧
    teardown_controls_menu { initialWorld with forest := [mainMenuTree 0] }
        = { initialWorld with forest := [mainMenuTree 0] } := by
  constructor
  · exact teardown_idempotent_at_zero.1 _ (by decide)
  · exact teardown_idempotent_at_zero.2 _ (by decide)

/-! ## Handler lemmas -/

theorem foldl_backStep_none : ∀ l : List Interaction,
    l.foldl backStep none = none := by
  intro l
  induction l with
  | nil => rfl
  | cons i rest ih => simpa [backStep] using ih

theorem foldl_clickStep_none : ∀ l : List (Interaction × MenuItem),
    l.foldl clickStep none = none := by
  intro l
  induction l with
  | nil => rfl
  | cons im rest ih => simpa [clickStep] using ih

theorem pushState_ok_inv {s : GameState} {st st' : AppStateResource}
    (h : pushState s st = .ok st') :
    st'.stack = st.stack ∧ st'.scheduled = some (.pushOp s) := by
  by_cases hq : st.scheduled.isSome
  · simp [pushState, hq] at h
  · simp [pushState, hq] at h
    subst h
    exact ⟨rfl, rfl⟩

theorem runStackCall_preserves (c : StackCall) (st : AppStateResource)
    (h1 : st.stack ≠ [])
    (h2 : st.scheduled = some .popOp → 2 ≤ st.stack.length) :
    (runStackCall c st).stack ≠ [] ∧
      ((runStackCall c st).scheduled = some .popOp →
        2 ≤ (runStackCall c st).stack.length) := by
  cases c with
  | callPush s =>
      by_cases hq : st.scheduled.isSome
      · have heq : runStackCall (.callPush s) st = st := by
          simp [runStackCall, pushState, hq]
        rw [heq]
        exact ⟨h1, h2⟩
      · simp [runStackCall, pushState, hq]
        exact h1
  | callPop =>
      by_cases hl : st.stack.length ≤ 1
      · have heq : runStackCall .callPop st = st := by
          simp [runStackCall, popState, hl]
        rw [heq]
        exact ⟨h1, h2⟩
      · by_cases hq : st.scheduled.isSome
        · have heq : runStackCall .callPop st = st := by
            simp [runStackCall, popState, hl, hq]
          rw [heq]
          exact ⟨h1, h2⟩
        · simp [runStackCall, popState, hl, hq]
          exact ⟨h1, by omega⟩
  | callApply =>
      match hs : st.scheduled with
      | none =>
          have heq : runStackCall .callApply st = st := by
            simp [runStackCall, applyScheduled, hs]
          rw [heq]
          exact ⟨h1, h2⟩
      | some (.pushOp s) => simp [runStackCall, applyScheduled, hs]
      | some .popOp =>
          have hlen : 2 ≤ st.stack.length := h2 hs
          match hst : st.stack with
          | [] => exact absurd hst h1
          | a :: rest =>
              simp [runStackCall, applyScheduled, hs, hst]
              have : 2 ≤ rest.length + 1 := by
                have := hst ▸ hlen
                simpa using this
              match rest with
              | [] => simp at this
              | b :: rest' => simp

theorem runStackCalls_preserves (cs : List StackCall) :
    ∀ st : AppStateResource, st.stack ≠ [] →
      (st.scheduled = some .popOp → 2 ≤ st.stack.length) →
      (runStackCalls cs st).stack ≠ [] := by
  induction cs with
  | nil => intro st h1 _; exact h1
  | cons c cs ih =>
      intro st h1 h2
      have hstep := runStackCall_preserves c st h1 h2
      have : runStackCalls (c :: cs) st = runStackCalls cs (runStackCall c st) :=
        rfl
      rw [this]
      exact ih _ hstep.1 hstep.2

/-- C1: popping a state stack that holds exactly one state fails with the
empty-stack error and leaves the resource unchanged; under any sequence of
push/pop calls (and engine transition applications) starting from a
single-element stack the stack never becomes empty; and the back-button
handler treats a pop failure as fatal — a frame with a clicked back button
on a one-element stack makes the handler abort (`unwrap` on `Err`). -/
theorem single_state_pop_fails_and_aborts :
    (∀ (s : GameState) (q : Option ScheduledOp),
        popState { stack := [s], scheduled := q } = .error .emptyStack ∧
        runStackCall .callPop { stack := [s], scheduled := q }
          = { stack := [s], scheduled := q }) ∧
    (∀ (cs : List StackCall) (s : GameState),
        (runStackCalls cs { stack := [s], scheduled := none }).stack ≠ []) ∧
    (∀ (inters : List Interaction) (s : GameState) (q : Option ScheduledOp),
        .Clicked ∈ inters →
        handle_back_button_interaction inters { stack := [s], scheduled := q }
          = none) := by
  refine ⟨fun s q => ⟨rfl, rfl⟩, ?_, ?_⟩
  · intro cs s
    exact runStackCalls_preserves cs _ (by simp) (by simp)
  · intro inters
    induction inters with
    | nil => intro s q h; simp at h
    | cons i rest ih =>
        intro s q h
        cases i with
        | Clicked =>
            have : backStep (some { stack := [s], scheduled := q }) .Clicked
                = none := rfl
            simp only [handle_back_button_interaction, List.foldl_cons, this]
            exact foldl_backStep_none rest
        | Hovered =>
            have hm : Interaction.Clicked ∈ rest := by
              rcases List.mem_cons.mp h with h' | h'
              · exact absurd h'.symm (by simp)
              · exact h'
            simpa only [handle_back_button_interaction, List.foldl_cons,
              backStep] using ih s q hm
        | None =>
            have hm : Interaction.Clicked ∈ rest := by
              rcases List.mem_cons.mp h with h' | h'
              · exact absurd h'.symm (by simp)
              · exact h'
            simpa only [handle_back_button_interaction, List.foldl_cons,
              backStep] using ih s q hm

/-- Witness for C1: from the startup stack `[MainMenu]`, a frame in which
the back button is clicked makes the back-button handler abort. -/
theorem single_state_pop_fails_and_aborts_witness :
    Interaction.Clicked ∈ ([.Hovered, .Clicked] : List Interaction) ∧
    handle_back_button_interaction [.Hovered, .Clicked]
      { stack := [.MainMenu], scheduled := none } = none := by
  refine ⟨by decide, ?_⟩
  exact single_state_pop_fails_and_aborts.2.2 [.Hovered, .Clicked] .MainMenu
    none (by decide)

theorem clickRun_frame (items : List (Interaction × MenuItem)) :
    ∀ w w' : ClickWorld, items.foldl clickStep (some w) = some w' →
      w'.state.stack = w.state.stack ∧
      w'.exits = w.exits
        + items.countP (fun im => im.1 == .Clicked && im.2 == .Exit) := by
  induction items with
  | nil =>
      intro w w' h
      simp only [List.foldl_nil, Option.some.injEq] at h
      subst h
      simp
  | cons im rest ih =>
      intro w w' h
      obtain ⟨i, mi⟩ := im
      cases i with
      | Clicked =>
          cases mi with
          | Play =>
              cases hp : pushState .MainGame w.state with
              | error e =>
                  rw [List.foldl_cons] at h
                  have hstep : clickStep (some w) (.Clicked, .Play) = none := by
                    simp [clickStep, hp, Except.toOption]
                  rw [hstep, foldl_clickStep_none] at h
                  exact absurd h (by simp)
              | ok st' =>
                  rw [List.foldl_cons] at h
                  have hstep : clickStep (some w) (.Clicked, .Play)
                      = some { w with state := st' } := by
                    simp [clickStep, hp, Except.toOption]
                  rw [hstep] at h
                  obtain ⟨ha, hb⟩ := ih _ _ h
                  refine ⟨by rw [ha]; exact (pushState_ok_inv hp).1, ?_⟩
                  simpa [List.countP_cons] using hb
          | Controls =>
              cases hp : pushState .ControlMenu w.state with
              | error e =>
                  rw [List.foldl_cons] at h
                  have hstep : clickStep (some w) (.Clicked, .Controls)
                      = none := by
                    simp [clickStep, hp, Except.toOption]
                  rw [hstep, foldl_clickStep_none] at h
                  exact absurd h (by simp)
              | ok st' =>
                  rw [List.foldl_cons] at h
                  have hstep : clickStep (some w) (.Clicked, .Controls)
                      = some { w with state := st' } := by
                    simp [clickStep, hp, Except.toOption]
                  rw [hstep] at h
                  obtain ⟨ha, hb⟩ := ih _ _ h
                  refine ⟨by rw [ha]; exact (pushState_ok_inv hp).1, ?_⟩
                  simpa [List.countP_cons] using hb
          | Exit =>
              rw [List.foldl_cons] at h
              have hstep : clickStep (some w) (.Clicked, .Exit)
                  = some { w with exits := w.exits + 1 } := rfl
              rw [hstep] at h
              obtain ⟨ha, hb⟩ := ih _ _ h
              refine ⟨ha, ?_⟩
              simp only [List.countP_cons] at *
              simp at hb ⊢
              omega
      | Hovered =>
          rw [List.foldl_cons] at h
          have hstep : clickStep (some w) (.Hovered, mi) = some w := rfl
          rw [hstep] at h
          obtain ⟨ha, hb⟩ := ih _ _ h
          refine ⟨ha, ?_⟩
          simpa [List.countP_cons] using hb
      | None =>
          rw [List.foldl_cons] at h
          have hstep : clickStep (some w) (.None, mi) = some w := rfl
          rw [hstep] at h
          obtain ⟨ha, hb⟩ := ih _ _ h
          refine ⟨ha, ?_⟩
          simpa [List.countP_cons] using hb

/-- C2: in the main-menu handler, a clicked Play button pushes `MainGame`,
a clicked Controls button pushes `ControlMenu`, a clicked Exit button
sends exactly one `AppExit` event and does not touch the state resource;
hovered and none signals do nothing; and over a whole frame the stack list
itself is never modified while the number of exit events grows by exactly
the number of clicked Exit buttons. -/
theorem main_menu_click_semantics :
    (∀ w : ClickWorld, w.state.scheduled = none →
        handle_menu_item_click [(.Clicked, .Play)] w
          = some { w with
              state := { w.state with scheduled := some (.pushOp .MainGame) } }) ∧
    (∀ w : ClickWorld, w.state.scheduled = none →
        handle_menu_item_click [(.Clicked, .Controls)] w
          = some { w with
              state := { w.state with
                scheduled := some (.pushOp .ControlMenu) } }) ∧
    (∀ w : ClickWorld,
        handle_menu_item_click [(.Clicked, .Exit)] w
          = some { w with exits := w.exits + 1 }) ∧
    (∀ (w : ClickWorld) (i : Interaction) (mi : MenuItem), i ≠ .Clicked →
        handle_menu_item_click [(i, mi)] w = some w) ∧
    (∀ (items : List (Interaction × MenuItem)) (w w' : ClickWorld),
        handle_menu_item_click items w = some w' →
        w'.state.stack = w.state.stack ∧
        w'.exits = w.exits
          + items.countP (fun im => im.1 == .Clicked && im.2 == .Exit)) := by
  refine ⟨?_, ?_, ?_, ?_, ?_⟩
  · intro w hq
    simp [handle_menu_item_click, clickStep, pushState, hq, Except.toOption]
  · intro w hq
    simp [handle_menu_item_click, clickStep, pushState, hq, Except.toOption]
  · intro w
    rfl
  · intro w i mi hi
    cases i with
    | Clicked => exact absurd rfl hi
    | Hovered => rfl
    | None => rfl
  · exact fun items => clickRun_frame items

/-- Witness for C2 from the startup state: clicking Controls schedules the
push of `ControlMenu`, and a frame with one clicked Exit button emits
exactly one exit event leaving the stack unchanged. -/
theorem main_menu_click_semantics_witness :
    handle_menu_item_click [(.Clicked, .Controls)] ⟨⟨[.MainMenu], none⟩, 0⟩
      = some ⟨⟨[.MainMenu], some (.pushOp .ControlMenu)⟩, 0⟩ ∧
    handle_menu_item_click [(.Clicked, .Exit)] ⟨⟨[.MainMenu], none⟩, 0⟩
      = some ⟨⟨[.MainMenu], none⟩, 1⟩ := by
  constructor
  · exact main_menu_click_semantics.2.1 ⟨⟨[.MainMenu], none⟩, 0⟩ rfl
  · exact main_menu_click_semantics.2.2.1 ⟨⟨[.MainMenu], none⟩, 0⟩

/-- C3: in the controls-menu handler, a clicked back button pops the state
stack (the pop is queued and, applied by the engine, returns the stack
from `[ControlMenu, MainMenu]` to `[MainMenu]`); hovered and none signals
change nothing. -/
theorem back_button_click_semantics :
    (∀ st : AppStateResource, st.scheduled = none → 1 < st.stack.length →
        handle_back_button_interaction [.Clicked] st
          = some { st with scheduled := some .popOp }) ∧
    (∀ (st : AppStateResource) (i : Interaction), i ≠ .Clicked →
        handle_back_button_interaction [i] st = some st) ∧
    applyScheduled { stack := [.ControlMenu, .MainMenu], scheduled := some .popOp }
      = { stack := [.MainMenu], scheduled := none } := by
  refine ⟨?_, ?_, rfl⟩
  · intro st hq hl
    have hl' : ¬ st.stack.length ≤ 1 := by omega
    simp [handle_back_button_interaction, backStep, popState, hl', hq,
      Except.toOption]
  · intro st i hi
    cases i with
    | Clicked => exact absurd rfl hi
    | Hovered => rfl
    | None => rfl

/-- Witness for C3: from stack `[ControlMenu, MainMenu]`, a clicked back
button queues the pop, and applying it yields `[MainMenu]`; a hovered back
button changes nothing. -/
theorem back_button_click_semantics_witness :
    handle_back_button_interaction [.Clicked] ⟨[.ControlMenu, .MainMenu], none⟩
      = some ⟨[.ControlMenu, .MainMenu], some .popOp⟩ ∧
    handle_back_button_interaction [.Hovered] ⟨[.ControlMenu, .MainMenu], none⟩
      = some ⟨[.ControlMenu, .MainMenu], none⟩ := by
  constructor
  · exact back_button_click_semantics.1 ⟨[.ControlMenu, .MainMenu], none⟩ rfl
      (by decide)
  · exact back_button_click_semantics.2.1 ⟨[.ControlMenu, .MainMenu], none⟩
      .Hovered (by decide)

/-- C10: the main-menu handler unwraps every push result, so a push
failure aborts the process: whenever a transition is already queued, a
clicked Play button makes the handler abort; in particular a frame in
which both Play and Controls report `Clicked` (the first push queues a
transition, the second fails) aborts, so pop-on-single-state is not the
only abort-triggering error path. -/
theorem push_failure_aborts :
    (∀ w : ClickWorld, w.state.scheduled.isSome →
        handle_menu_item_click [(.Clicked, .Play)] w = none) ∧
    handle_menu_item_click [(.Clicked, .Play), (.Clicked, .Controls)]
      ⟨⟨[.MainMenu], none⟩, 0⟩ = none := by
  refine ⟨?_, by decide⟩
  intro w hq
  simp [handle_menu_item_click, clickStep, pushState, hq, Except.toOption]

/-- Witness for C10: with a push already queued, a clicked Play button
aborts the handler. -/
theorem push_failure_aborts_witness :
    handle_menu_item_click [(.Clicked, .Play)]
      ⟨⟨[.MainMenu], some (.pushOp .ControlMenu)⟩, 0⟩ = none :=
  push_failure_aborts.1 ⟨⟨[.MainMenu], some (.pushOp .ControlMenu)⟩, 0⟩
    (by decide)

/-! ## Lifecycle lemmas -/

/-- The lifecycle states reachable from startup: the main menu alone, the
controls menu pushed on top of it, or the game pushed on top of it. -/
theorem reachable_cases (st : LifeState) (h : ReachableLife st) :
    st = initLife ∨ st = doPush .ControlMenu initLife ∨
      st = doPush .MainGame initLife := by
  have hinit : initLife = ⟨[.MainMenu], [.MainMenu], [.mainMenu]⟩ := by decide
  have hctrl : doPush .ControlMenu initLife
      = ⟨[.ControlMenu, .MainMenu], [.ControlMenu], [.controlMenu]⟩ := by decide
  have hgame : doPush .MainGame initLife
      = ⟨[.MainGame, .MainMenu], [.MainGame], []⟩ := by decide
  induction h with
  | refl => exact Or.inl rfl
  | tail hr hstep ih =>
      rcases ih with rfl | rfl | rfl
      · cases hstep with
        | clickPlay h => exact Or.inr (Or.inr rfl)
        | clickControls h => exact Or.inr (Or.inl rfl)
        | clickBack h hl =>
            rw [hinit] at h
            exact absurd h (by decide)
      · cases hstep with
        | clickPlay h =>
            rw [hctrl] at h
            exact absurd h (by decide)
        | clickControls h =>
            rw [hctrl] at h
            exact absurd h (by decide)
        | clickBack h hl =>
            refine Or.inl ?_
            rw [hctrl]
            decide
      · cases hstep with
        | clickPlay h =>
            rw [hgame] at h
            exact absurd h (by decide)
        | clickControls h =>
            rw [hgame] at h
            exact absurd h (by decide)
        | clickBack h hl =>
            rw [hgame] at h
            exact absurd h (by decide)

/-- C4: at every observation point between frames reachable from startup,
the scene-root markers present in the scene graph are exactly the markers
of the states that have been entered or resumed and not yet paused or
exited — and that set is exactly the top of the stack; `ControlMenu` is
never below the top (hence never paused); the plugin registers `MainMenu`
teardown on pause and rebuild on resume, and for `ControlMenu` no pause
system and teardown on exit; concretely, pushing `ControlMenu` or
`MainGame` tears the main-menu scene down and popping back rebuilds it. -/
theorem lifecycle_scene_invariant :
    (∀ st : LifeState, ReachableLife st →
        st.markers = st.active.filterMap markerOf ∧
        st.active = st.stack.take 1) ∧
    (∀ st : LifeState, ReachableLife st →
        GameState.ControlMenu ∉ st.stack.tail) ∧
    registeredSystems .MainMenu .pause = [.teardownScene] ∧
    registeredSystems .MainMenu .resume = [.buildScene] ∧
    registeredSystems .ControlMenu .pause = [] ∧
    registeredSystems .ControlMenu .exit = [.teardownScene] ∧
    (doPush .ControlMenu initLife).markers = [.controlMenu] ∧
    (doPush .MainGame initLife).markers = [] ∧
    (doPop (doPush .ControlMenu initLife)).markers = [.mainMenu] := by
  refine ⟨?_, ?_, rfl, rfl, rfl, rfl, by decide, by decide, by decide⟩
  · intro st h
    rcases reachable_cases st h with rfl | rfl | rfl
    · exact ⟨by decide, by decide⟩
    · exact ⟨by decide, by decide⟩
    · exact ⟨by decide, by decide⟩
  · intro st h
    rcases reachable_cases st h with rfl | rfl | rfl
    · decide
    · decide
    · decide

/-- Witness for C4: the invariant at the startup observation point. -/
theorem lifecycle_scene_invariant_witness :
    initLife.markers = initLife.active.filterMap markerOf ∧
    GameState.ControlMenu ∉ initLife.stack.tail := by
  refine ⟨(lifecycle_scene_invariant.1 initLife ?_).1,
    lifecycle_scene_invariant.2.1 initLife ?_⟩ <;>
  exact Relation.ReflTransGen.refl

/-! ## World-level lemmas -/

theorem foldl_runOp_none : ∀ ops : List Operation,
    ops.foldl (fun acc op => acc.bind (runOp op)) none = none := by
  intro ops
  induction ops with
  | nil => rfl
  | cons op rest ih => simpa using ih

theorem runOps_cons (op : Operation) (ops : List Operation) (w : World) :
    runOps (op :: ops) w
      = match runOp op w with
        | some w₁ => runOps ops w₁
        | none => none := by
  cases hop : runOp op w with
  | none =>
      simp only [runOps, List.foldl_cons, Option.some_bind, hop]
      exact foldl_runOp_none ops
  | some w₁ => simp only [runOps, List.foldl_cons, Option.some_bind, hop]

/-- Entities surviving a teardown were already in the forest. -/
theorem teardown_data_subset (m : Marker) :
    ∀ f, ∀ d ∈ allDataF (teardownForest m f), d ∈ allDataF f := by
  refine forest_ind _ ?_ ?_
  · simp [teardownForest, allDataF]
  · intro d cs ts ihcs ihts e he
    by_cases hm : d.marker = some m
    · simp only [teardownForest, teardownTree, if_pos hm, List.nil_append] at he
      simp only [allDataF, allDataT, List.cons_append, List.mem_cons,
        List.mem_append]
      exact Or.inr (Or.inr (ihts e he))
    · simp only [teardownForest, teardownTree, if_neg hm, List.cons_append,
        List.nil_append, List.singleton_append, allDataF, allDataT,
        List.mem_cons, List.mem_append] at he
      simp only [allDataF, allDataT, List.cons_append, List.mem_cons,
        List.mem_append]
      rcases he with rfl | he | he
      · exact Or.inl rfl
      · exact Or.inr (Or.inl (ihcs e he))
      · exact Or.inr (Or.inr (ihts e he))

/-- In the main-menu scene tree, every marked entity is hidden (only the
root carries a marker, and it is spawned with `is_visible: false`). -/
theorem mainMenuTree_marked_hidden (n : Nat) :
    ∀ d ∈ allDataF [mainMenuTree n], d.marker.isSome → d.isVisible = false := by
  intro d hd
  simp only [mainMenuTree, spawn_button, menuItemLabel, blankEntity, allDataF,
    allDataT, List.append_nil, List.cons_append, List.nil_append,
    List.mem_cons, List.not_mem_nil, or_false] at hd
  rcases hd with rfl | rfl | rfl | rfl | rfl | rfl | rfl | rfl <;> simp

/-- In the controls-menu scene tree, every marked entity is hidden. -/
theorem controlsMenuTree_marked_hidden (n : Nat) :
    ∀ d ∈ allDataF [controlsMenuTree n], d.marker.isSome →
      d.isVisible = false := by
  intro d hd
  simp only [controlsMenuTree, blankEntity, allDataF, allDataT,
    List.append_nil, List.cons_append, List.nil_append, List.mem_cons,
    List.not_mem_nil, or_false] at hd
  rcases hd with rfl | rfl | rfl | rfl <;> simp

/-- Every operation of the repository preserves "all marked entities are
hidden": builders spawn marked roots hidden, teardown only removes,
handlers and the camera do not touch marked entities. -/
theorem runOp_preserves_hidden (op : Operation) (w w' : World)
    (h : runOp op w = some w')
    (hw : ∀ d ∈ allDataF w.forest, d.marker.isSome → d.isVisible = false) :
    ∀ d ∈ allDataF w'.forest, d.marker.isSome → d.isVisible = false := by
  cases op with
  | opSetupMainMenu =>
      simp only [runOp, Option.some.injEq] at h
      subst h
      intro d hd
      rw [setup_main_menu] at hd
      simp only [allDataF_append, List.mem_append] at hd
      rcases hd with hd | hd
      · exact hw d hd
      · exact mainMenuTree_marked_hidden w.nextId d hd
  | opSetupControlsMenu =>
      simp only [runOp, Option.some.injEq] at h
      subst h
      intro d hd
      rw [setup_controls_menu] at hd
      simp only [allDataF_append, List.mem_append] at hd
      rcases hd with hd | hd
      · exact hw d hd
      · exact controlsMenuTree_marked_hidden w.nextId d hd
  | opTeardownMenuItems =>
      simp only [runOp, Option.some.injEq] at h
      subst h
      intro d hd
      exact hw d (teardown_data_subset .mainMenu w.forest d hd)
  | opTeardownControlsMenu =>
      simp only [runOp, Option.some.injEq] at h
      subst h
      intro d hd
      exact hw d (teardown_data_subset .controlMenu w.forest d hd)
  | opHandleMenuItemClick items =>
      simp only [runOp] at h
      cases hh : handle_menu_item_click items { state := w.state, exits := w.exits } with
      | none => rw [hh] at h; simp at h
      | some cw =>
          rw [hh] at h
          have h' : { w with state := cw.state, exits := cw.exits } = w' := by
            simpa using h
          subst h'
          exact hw
  | opHandleBackButton inters =>
      simp only [runOp] at h
      cases hh : handle_back_button_interaction inters w.state with
      | none => rw [hh] at h; simp at h
      | some st =>
          rw [hh] at h
          have h' : { w with state := st } = w' := by
            simpa using h
          subst h'
          exact hw
  | opSpawnUiCamera =>
      simp only [runOp, Option.some.injEq] at h
      subst h
      intro d hd
      rw [spawn_ui_camera] at hd
      simp only [allDataF_append, List.mem_append] at hd
      rcases hd with hd | hd
      · exact hw d hd
      · intro hm
        simp only [allDataF, allDataT, blankEntity, List.append_nil,
          List.mem_cons, List.not_mem_nil, or_false] at hd
        subst hd
        simp at hm
  | opApplyScheduled =>
      simp only [runOp, Option.some.injEq] at h
      subst h
      exact hw

theorem runOps_preserves_hidden (ops : List Operation) :
    ∀ w w' : World, runOps ops w = some w' →
      (∀ d ∈ allDataF w.forest, d.marker.isSome → d.isVisible = false) →
      ∀ d ∈ allDataF w'.forest, d.marker.isSome → d.isVisible = false := by
  induction ops with
  | nil =>
      intro w w' h hw
      simp only [runOps, List.foldl_nil, Option.some.injEq] at h
      subst h
      exact hw
  | cons op rest ih =>
      intro w w' h hw
      rw [runOps_cons] at h
      cases hop : runOp op w with
      | none => rw [hop] at h; simp at h
      | some w₁ =>
          rw [hop] at h
          exact ih w₁ w' h (runOp_preserves_hidden op w w₁ hop hw)

/-- C5: both scene builders construct their scene root with the visibility
flag set to hidden, and along every run of the repository's operations
from startup, every entity carrying a scene marker — in particular each
scene root — still has its visibility flag hidden: no operation ever sets
a root visible. -/
theorem scene_roots_built_hidden_and_stay_hidden :
    (∀ n : Nat, (mainMenuTree n).rootData.marker = some .mainMenu ∧
        (mainMenuTree n).rootData.isVisible = false) ∧
    (∀ n : Nat, (controlsMenuTree n).rootData.marker = some .controlMenu ∧
        (controlsMenuTree n).rootData.isVisible = false) ∧
    (∀ (ops : List Operation) (w' : World),
        runOps ops initialWorld = some w' →
        ∀ d ∈ allDataF w'.forest, d.marker.isSome → d.isVisible = false) := by
  refine ⟨fun n => ⟨rfl, rfl⟩, fun n => ⟨rfl, rfl⟩, ?_⟩
  intro ops w' h
  exact runOps_preserves_hidden ops initialWorld w' h (by simp [initialWorld, allDataF])

/-- Witness for C5: after the startup sequence (camera, then the main-menu
build on entering `MainMenu`), the main-menu root is still hidden. -/
theorem scene_roots_built_hidden_and_stay_hidden_witness :
    (mainMenuTree 1).rootData.isVisible = false := by
  have h := scene_roots_built_hidden_and_stay_hidden.2.2
    [.opSpawnUiCamera, .opSetupMainMenu]
    (setup_main_menu (spawn_ui_camera initialWorld)) rfl
  exact h (mainMenuTree 1).rootData (by decide) (by decide)

/-- Only `setup_main_menu` writes the clear color, and it writes black. -/
theorem runOp_clearColor (op : Operation) (w w' : World)
    (h : runOp op w = some w') :
    (op = .opSetupMainMenu ∧ w'.clearColor = .black) ∨
      w'.clearColor = w.clearColor := by
  cases op with
  | opSetupMainMenu =>
      simp only [runOp, Option.some.injEq] at h
      subst h
      exact Or.inl ⟨rfl, rfl⟩
  | opSetupControlsMenu =>
      simp only [runOp, Option.some.injEq] at h
      subst h
      exact Or.inr rfl
  | opTeardownMenuItems =>
      simp only [runOp, Option.some.injEq] at h
      subst h
      exact Or.inr rfl
  | opTeardownControlsMenu =>
      simp only [runOp, Option.some.injEq] at h
      subst h
      exact Or.inr rfl
  | opHandleMenuItemClick items =>
      simp only [runOp] at h
      cases hh : handle_menu_item_click items { state := w.state, exits := w.exits } with
      | none => rw [hh] at h; simp at h
      | some cw =>
          rw [hh] at h
          have h' : { w with state := cw.state, exits := cw.exits } = w' := by
            simpa using h
          subst h'
          exact Or.inr rfl
  | opHandleBackButton inters =>
      simp only [runOp] at h
      cases hh : handle_back_button_interaction inters w.state with
      | none => rw [hh] at h; simp at h
      | some st =>
          rw [hh] at h
          have h' : { w with state := st } = w' := by
            simpa using h
          subst h'
          exact Or.inr rfl
  | opSpawnUiCamera =>
      simp only [runOp, Option.some.injEq] at h
      subst h
      exact Or.inr rfl
  | opApplyScheduled =>
      simp only [runOp, Option.some.injEq] at h
      subst h
      exact Or.inr rfl

/-- C9: the controls-menu builder neither reads nor writes the clear-color
resource (it commutes with any change of that resource); the main-menu
builder always writes black; no other operation writes the resource; hence
once the first main-menu build has run, the background stays black across
every subsequent operation, including every push/pop transition and the
whole time the controls menu is active. -/
theorem clear_color_frame_condition :
    (∀ (w : World) (c : Color),
        setup_controls_menu { w with clearColor := c }
          = { setup_controls_menu w with clearColor := c }) ∧
    (∀ w : World, (setup_main_menu w).clearColor = .black) ∧
    (∀ (op : Operation) (w w' : World), runOp op w = some w' →
        op ≠ .opSetupMainMenu → w'.clearColor = w.clearColor) ∧
    (∀ (ops : List Operation) (w w' : World), w.clearColor = .black →
        runOps ops w = some w' → w'.clearColor = .black) := by
  refine ⟨fun w c => rfl, fun w => rfl, ?_, ?_⟩
  · intro op w w' h hop
    rcases runOp_clearColor op w w' h with ⟨heq, _⟩ | heq
    · exact absurd heq hop
    · exact heq
  · intro ops
    induction ops with
    | nil =>
        intro w w' hb h
        simp only [runOps, List.foldl_nil, Option.some.injEq] at h
        subst h
        exact hb
    | cons op rest ih =>
        intro w w' hb h
        rw [runOps_cons] at h
        cases hop : runOp op w with
        | none => rw [hop] at h; simp at h
        | some w₁ =>
            rw [hop] at h
            rcases runOp_clearColor op w w₁ hop with ⟨_, hc⟩ | hc
            · exact ih w₁ w' hc h
            · exact ih w₁ w' (hc.trans hb) h

/-- Witness for C9: the controls build after the first main-menu build
leaves the background black. -/
theorem clear_color_frame_condition_witness :
    (setup_controls_menu (setup_main_menu initialWorld)).clearColor
      = .black := by
  have h := clear_color_frame_condition.2.2.2 [.opSetupControlsMenu]
    (setup_main_menu initialWorld)
    (setup_controls_menu (setup_main_menu initialWorld)) rfl rfl
  exact h

/-- C8: `setup_main_menu` sets the background clear color to black and
spawns, under a single root tagged with the `MainMenu` marker, the title
text "Bevy Simple Menu" and exactly three button entities whose `MenuItem`
tags and labels are, in order, Play/"Play", Controls/"Controls",
Exit/"Exit"; an entity of the tree carries a `MenuItem` tag exactly when
it is a button (one tag per button). -/
theorem main_menu_construction :
    (∀ w : World, (setup_main_menu w).clearColor = .black ∧
        (setup_main_menu w).forest = w.forest ++ [mainMenuTree w.nextId]) ∧
    (∀ n : Nat, (mainMenuTree n).rootData.marker = some .mainMenu ∧
        textsF [mainMenuTree n]
          = ["Bevy Simple Menu", "Play", "Controls", "Exit"] ∧
        buttonSummaryF [mainMenuTree n]
          = [(.Play, ["Play"]), (.Controls, ["Controls"]), (.Exit, ["Exit"])] ∧
        ((allDataF [mainMenuTree n]).all
            fun d => d.isButton == d.menuItem.isSome) = true) :=
  ⟨fun _ => ⟨rfl, rfl⟩, fun _ => ⟨rfl, rfl, rfl, rfl⟩⟩

end BevySimpleMenu
